import Mathlib

/-!
Verification development for the attribute-topic synchronization layer of the
node-red_ui repository (src/ppc.py, src/ppc1.py, src/ems_mqtt.py).

The Python code is shallowly embedded:
- Python dicts (which preserve insertion order) become association lists with
  the update-in-place / append-if-absent discipline of `dictSet`.
- Python/JSON values become the inductive type `PyValue` (`PyValue.none`
  models Python's `None`, which is also JSON `null`).
- The paho MQTT client is an external collaborator; it is modelled as a
  `Client` recording the sequence of `subscribe` / `publish` / `connect`
  calls the repository code issues, together with the connection flag at
  the moment each publish call is made.
- `json.dumps` / `json.loads` are Python standard-library functions whose
  code is not part of the repository; the codec (`encode`, `decode`,
  `decodeTotal`) is modelled from the spec (section 4.1), see below.
-/

/-- Python values as stored in `handler.data` and carried in JSON payloads.
`PyValue.none` models Python's `None` (JSON `null`).  Numbers are modelled
as integers; IEEE floating point is outside the scope of this embedding. -/
inductive PyValue where
  | none : PyValue
  | bool (b : Bool) : PyValue
  | int (n : Int) : PyValue
  | str (s : String) : PyValue
  | list (xs : List PyValue) : PyValue
  | dict (xs : List (String × PyValue)) : PyValue

/-- Python dict update `d[k] = v`: replace in place (keeping the key's
insertion position) if the key is present, else append. -/
def dictSet {α : Type} : List (String × α) → String → α → List (String × α)
  | [], k, v => [(k, v)]
  | p :: rest, k, v => if p.1 = k then (k, v) :: rest else p :: dictSet rest k v

/-- Python dict lookup `d.get(k)` / `d[k]`: first entry with the key. -/
def dictGet? {α : Type} : List (String × α) → String → Option α
  | [], _ => none
  | p :: rest, k => if p.1 = k then some p.2 else dictGet? rest k

/-! ## Codec

Modelled from the spec: `encode` / `decode` stand for Python's `json.dumps`
and `json.loads` (standard-library code, not under src/).  Spec section 4.1:
`decode` attempts a structured (JSON) parse and on failure returns the raw
text unchanged, never failing; `encode` always serializes in the structured
format.  Simplifications of the model: numbers are integer literals only,
and non-ASCII or control characters are emitted literally instead of as
`\uXXXX` escapes (Python escapes them, but both sides round-trip the same
way, which is the behaviour the claims are about). -/

def quoteChar : Char := Char.ofNat 34

def backslashChar : Char := Char.ofNat 92

def lbraceChar : Char := Char.ofNat 123

def rbraceChar : Char := Char.ofNat 125

def isWsChar (c : Char) : Bool :=
  decide (c.toNat = 32) || decide (c.toNat = 10) || decide (c.toNat = 9) || decide (c.toNat = 13)

def isDigitChar (c : Char) : Bool :=
  decide (48 ≤ c.toNat) && decide (c.toNat ≤ 57)

def digitChar : Nat → Char
  | 0 => '0' | 1 => '1' | 2 => '2' | 3 => '3' | 4 => '4'
  | 5 => '5' | 6 => '6' | 7 => '7' | 8 => '8' | _ => '9'

def digitVal (c : Char) : Nat := c.toNat - 48

/-- Fuel-driven digit rendering; any fuel above the argument suffices. -/
def natCharsAux : Nat → Nat → List Char
  | 0, _ => []
  | f + 1, n =>
    if n < 10 then [digitChar n]
    else natCharsAux f (n / 10) ++ [digitChar (n % 10)]

/-- Decimal digits of a natural number, most significant first. -/
def natChars (n : Nat) : List Char := natCharsAux (n + 1) n

/-- Decimal rendering of an integer, as `str` / `json.dumps` produce it. -/
def intChars (n : Int) : List Char :=
  if n < 0 then '-' :: natChars (-n).toNat else natChars n.toNat

/-- JSON string escaping of one character (only the characters `encode`
must escape; everything else is emitted literally). -/
def escapeChar (c : Char) : List Char :=
  if c = quoteChar then [backslashChar, quoteChar]
  else if c = backslashChar then [backslashChar, backslashChar]
  else [c]

/-- Body of a JSON string literal including the closing quote. -/
def escString : List Char → List Char
  | [] => [quoteChar]
  | c :: cs => escapeChar c ++ escString cs

mutual

/-- Characters of the JSON serialization of a value (`json.dumps`, with the
default `", "` and `": "` separators). -/
def encChars : PyValue → List Char
  | .none => 'n' :: 'u' :: 'l' :: 'l' :: []
  | .bool true => 't' :: 'r' :: 'u' :: 'e' :: []
  | .bool false => 'f' :: 'a' :: 'l' :: 's' :: 'e' :: []
  | .int n => intChars n
  | .str s => quoteChar :: escString s.data
  | .list [] => '[' :: ']' :: []
  | .list (v :: vs) => '[' :: (encChars v ++ encTail vs)
  | .dict [] => lbraceChar :: rbraceChar :: []
  | .dict ((k, v) :: ms) =>
      lbraceChar :: (quoteChar :: escString k.data ++ ':' :: ' ' :: encChars v ++ encDTail ms)

/-- Remaining array items after the first, including the closing bracket. -/
def encTail : List PyValue → List Char
  | [] => [']']
  | v :: vs => ',' :: ' ' :: (encChars v ++ encTail vs)

/-- Remaining object members after the first, including the closing brace. -/
def encDTail : List (String × PyValue) → List Char
  | [] => [rbraceChar]
  | (k, v) :: ms =>
      ',' :: ' ' :: (quoteChar :: escString k.data ++ ':' :: ' ' :: encChars v ++ encDTail ms)

end

/-- JSON serialization (`json.dumps`). -/
def encode (v : PyValue) : String := ⟨encChars v⟩

def skipWs : List Char → List Char
  | [] => []
  | c :: cs => if isWsChar c then skipWs cs else c :: cs

/-- JSON escape sequences accepted on decode. -/
def unescape (e : Char) : Option Char :=
  if e = quoteChar then some quoteChar
  else if e = backslashChar then some backslashChar
  else if e = '/' then some '/'
  else if e = 'n' then some '\n'
  else if e = 't' then some '\t'
  else if e = 'r' then some '\r'
  else if e = 'b' then some (Char.ofNat 8)
  else if e = 'f' then some (Char.ofNat 12)
  else none

/-- Parse the body of a string literal after the opening quote, up to and
including the closing quote. -/
def parseStringBody : List Char → Option (List Char × List Char)
  | [] => none
  | [c] => if c = quoteChar then some ([], []) else none
  | c :: e :: cs2 =>
    if c = quoteChar then some ([], e :: cs2)
    else if c = backslashChar then
      match unescape e with
      | some d =>
        match parseStringBody cs2 with
        | some (s, r) => some (d :: s, r)
        | none => none
      | none => none
    else
      match parseStringBody (e :: cs2) with
      | some (s, r) => some (c :: s, r)
      | none => none

/-- Consume a maximal run of decimal digits, accumulating their value. -/
def parseDigits (acc : Nat) : List Char → Nat × List Char
  | [] => (acc, [])
  | c :: cs => if isDigitChar c then parseDigits (acc * 10 + digitVal c) cs else (acc, c :: cs)

/-- Parse an (optionally negated) integer literal. -/
def parseNumber : List Char → Option (PyValue × List Char)
  | [] => none
  | c :: cs =>
    if c = '-' then
      match cs with
      | [] => none
      | d :: _ =>
        if isDigitChar d then
          let p := parseDigits 0 cs
          some (.int (-(Int.ofNat p.1)), p.2)
        else none
    else if isDigitChar c then
      let p := parseDigits 0 (c :: cs)
      some (.int (Int.ofNat p.1), p.2)
    else none

/-- Match an exact literal continuation (after its already-consumed head). -/
def expectLit (lit : List Char) (cs : List Char) (v : PyValue) : Option (PyValue × List Char) :=
  match lit, cs with
  | [], rest => some (v, rest)
  | l :: ls, c :: rest => if c = l then expectLit ls rest v else none
  | _ :: _, [] => none

mutual

/-- Fuel-indexed recursive-descent JSON value parser. -/
def parseValue : Nat → List Char → Option (PyValue × List Char)
  | 0, _ => none
  | f + 1, cs =>
    match skipWs cs with
    | [] => none
    | c :: r =>
      if c = 'n' then expectLit ('u' :: 'l' :: 'l' :: []) r PyValue.none
      else if c = 't' then expectLit ('r' :: 'u' :: 'e' :: []) r (.bool true)
      else if c = 'f' then expectLit ('a' :: 'l' :: 's' :: 'e' :: []) r (.bool false)
      else if c = quoteChar then
        match parseStringBody r with
        | some (s, r1) => some (.str ⟨s⟩, r1)
        | none => none
      else if c = '[' then
        match skipWs r with
        | [] => none
        | d :: r2 =>
          if d = ']' then some (.list [], r2)
          else
            match parseItems f (d :: r2) with
            | some (vs, r3) => some (.list vs, r3)
            | none => none
      else if c = lbraceChar then
        match skipWs r with
        | [] => none
        | d :: r2 =>
          if d = rbraceChar then some (.dict [], r2)
          else
            match parseMembers f (d :: r2) with
            | some (ms, r3) => some (.dict ms, r3)
            | none => none
      else if c = '-' || isDigitChar c then parseNumber (c :: r)
      else none

/-- Parse the items of a non-empty array, up to the closing bracket. -/
def parseItems : Nat → List Char → Option (List PyValue × List Char)
  | 0, _ => none
  | f + 1, cs =>
    match parseValue f cs with
    | some (v, r) =>
      match skipWs r with
      | [] => none
      | d :: r2 =>
        if d = ',' then
          match parseItems f r2 with
          | some (vs, r3) => some (v :: vs, r3)
          | none => none
        else if d = ']' then some ([v], r2)
        else none
    | none => none

/-- Parse the members of a non-empty object, up to the closing brace. -/
def parseMembers : Nat → List Char → Option (List (String × PyValue) × List Char)
  | 0, _ => none
  | f + 1, cs =>
    match skipWs cs with
    | [] => none
    | c :: r =>
      if c = quoteChar then
        match parseStringBody r with
        | some (k, r1) =>
          match skipWs r1 with
          | ':' :: r2 =>
            match parseValue f r2 with
            | some (v, r3) =>
              match skipWs r3 with
              | [] => none
              | d :: r4 =>
                if d = ',' then
                  match parseMembers f r4 with
                  | some (ms, r5) => some ((⟨k⟩, v) :: ms, r5)
                  | none => none
                else if d = rbraceChar then some ([(⟨k⟩, v)], r4)
                else none
            | none => none
          | _ => none
        | none => none
      else none

end

/-- JSON parse of a complete input (`json.loads`): the whole string must be
one value, modulo surrounding whitespace; `Option.none` models the
`json.JSONDecodeError` raised on malformed input. -/
def decode (s : String) : Option PyValue :=
  match parseValue (s.data.length + 1) s.data with
  | some (v, rest) => if skipWs rest = [] then some v else none
  | none => none

/-- Total decode as the handlers use it: `json.loads` with the
`except json.JSONDecodeError: pass` fallback that keeps the raw text. -/
def decodeTotal (s : String) : PyValue :=
  match decode s with
  | some v => v
  | none => .str s

/-! ## Bus client and handler (src/ppc1.py `MQTTHandler`)

The paho client is the external bus collaborator; the model records every
call the repository code makes on it.  `BusAction.publish` additionally
records whether the client was connected at the moment of the call, since
a QoS-0 publish handed to a disconnected client is not delivered.
`src/ppc.py`'s `MQTTHandler` has the same `__init__` / `on_connect` /
`on_message` logic (with the config dict named `config` instead of
`_config`); the model below covers both. -/

inductive BusAction where
  | subscribe (topic : String) : BusAction
  | publish (topic : String) (payload : String) (connectedAtCall : Bool) : BusAction
  | connect : BusAction
  | loopStart : BusAction

structure Client where
  connected : Bool
  trace : List BusAction

def Client.subscribe (c : Client) (topic : String) : Client :=
  { c with trace := c.trace ++ [BusAction.subscribe topic] }

def Client.publish (c : Client) (topic payload : String) : Client :=
  { c with trace := c.trace ++ [BusAction.publish topic payload c.connected] }

/-- State of `MQTTHandler` (src/ppc1.py lines 5-57): the `_config`
attribute-to-topic dict, the `data` store, the `last_update_time` dict
(`Option Nat` values, `none` being Python `None`), and the bus client. -/
structure MQTTHandler where
  config : List (String × String)
  data : List (String × PyValue)
  last_update_time : List (String × Option Nat)
  client : Client

/-- `MQTTHandler.__init__` (lines 6-15): seeds `data` and
`last_update_time` with `None` for every configured attribute; the fresh
paho client starts disconnected with no calls issued. -/
def mkMQTTHandler (cfg : List (String × String)) : MQTTHandler :=
  { config := cfg
    data := cfg.map (fun p => (p.1, PyValue.none))
    last_update_time := cfg.map (fun p => (p.1, none))
    client := { connected := false, trace := [] } }

/-- `MQTTHandler.on_connect` (lines 17-21): invoked by the bus client once
the connection is up; subscribes to every configured topic. -/
def MQTTHandler.on_connect (h : MQTTHandler) : MQTTHandler :=
  { h with client := (h.config.foldl (fun c p => c.subscribe p.2)
      { h.client with connected := true }) }

/-- `MQTTHandler.on_message` (lines 23-37): decode the payload with the
raw-text fallback, find the first configured attribute whose topic equals
the message topic, and update its value and last-update time. -/
def MQTTHandler.on_message (h : MQTTHandler) (topic raw : String) (now : Nat) : MQTTHandler :=
  match h.config.find? (fun p => p.2 == topic) with
  | some p =>
    { h with data := dictSet h.data p.1 (decodeTotal raw)
             last_update_time := dictSet h.last_update_time p.1 (some now) }
  | none => h

/-- `MQTTHandler.add_config` (lines 42-49): for each new entry, bind the
attribute to its topic, reset its `data` and `last_update_time` entries to
`None`, and subscribe to the topic. -/
def MQTTHandler.add_config (h : MQTTHandler) : List (String × String) → MQTTHandler
  | [] => h
  | (attr, topic) :: rest =>
    ({ h with config := dictSet h.config attr topic
              data := dictSet h.data attr PyValue.none
              last_update_time := dictSet h.last_update_time attr none
              client := h.client.subscribe topic }).add_config rest

/-- `MQTTHandler.connect` (lines 39-40): hands the connect call to the bus
client (the connection completes asynchronously; `on_connect` fires later). -/
def MQTTHandler.connect (h : MQTTHandler) : MQTTHandler :=
  { h with client := { h.client with trace := h.client.trace ++ [BusAction.connect] } }

/-- `MQTTHandler.start` (lines 51-53): `connect` then `loop_start`, with no
already-started guard of any kind. -/
def MQTTHandler.start (h : MQTTHandler) : MQTTHandler :=
  let h1 := h.connect
  { h1 with client := { h1.client with trace := h1.client.trace ++ [BusAction.loopStart] } }

/-! ## Entity proxy (src/ppc1.py `MQTTEngineEntity`)

`dict` models the entity instance's `__dict__` entries for attribute names
(the `handler` and `_config` references stored there are modelled as the
separate `MQTTHandler` argument and the `config` field; theorems about
attribute names therefore exclude the names "handler" and "_config"). -/

structure MQTTEngineEntity where
  dict : List (String × PyValue)
  config : List (String × String)

/-- `MQTTEngineEntity.__initialize_defaults` (lines 66-73): for each
default, write the value into `handler.data` directly, publish it
immediately when the entity's config has a topic for it, and set the local
attribute in `__dict__` without triggering `__setattr__`. -/
def initDefaults : MQTTEngineEntity → MQTTHandler → List (String × PyValue) →
    MQTTEngineEntity × MQTTHandler
  | e, h, [] => (e, h)
  | e, h, (attr, value) :: rest =>
    let h1 := { h with data := dictSet h.data attr value }
    let h2 :=
      match dictGet? e.config attr with
      | some topic => { h1 with client := h1.client.publish topic (encode value) }
      | none => h1
    initDefaults { e with dict := dictSet e.dict attr value } h2 rest

/-- `MQTTEngineEntity.__init__` (lines 60-64): store the handler and config
references, add the config to the handler, then seed the defaults. -/
def MQTTEngineEntity.create (h : MQTTHandler) (config : List (String × String))
    (defaults : List (String × PyValue)) : MQTTEngineEntity × MQTTHandler :=
  initDefaults { dict := [], config := config } (h.add_config config) defaults

/-- Python attribute read on the entity: ordinary lookup checks the
instance `__dict__` first, and only when that fails is `__getattr__`
(lines 84-88) invoked, which reads `handler.data`; `Option.none` models
the `AttributeError`. -/
def MQTTEngineEntity.getattr (e : MQTTEngineEntity) (h : MQTTHandler) (name : String) :
    Option PyValue :=
  match dictGet? e.dict name with
  | some v => some v
  | none => dictGet? h.data name

/-- `MQTTEngineEntity.__setattr__` (lines 75-82): when the name is in the
entity's declared config, write `handler.data` and publish on the topic
`handler._config` holds for the name; in every case finish with
`super().__setattr__`, i.e. store the value in the instance `__dict__`. -/
def MQTTEngineEntity.setattr (e : MQTTEngineEntity) (h : MQTTHandler) (name : String)
    (v : PyValue) : MQTTEngineEntity × MQTTHandler :=
  let h' :=
    if (dictGet? e.config name).isSome then
      let h1 := { h with data := dictSet h.data name v }
      match dictGet? h.config name with
      | some topic => { h1 with client := h1.client.publish topic (encode v) }
      | none => h1
    else h
  ({ e with dict := dictSet e.dict name v }, h')

/-! ## Communication manager (src/ems_mqtt.py `MqttCommunicationManager`)

Managed objects are plain Python objects; their attribute storage is the
instance `__dict__`, modelled as an association list. -/

structure EmsObject where
  dict : List (String × PyValue)

/-- Characters of a string split on the slash separator, Python
`str.split('/')` semantics (empty segments preserved). -/
def splitSlashChars : List Char → List Char → List (List Char)
  | [], acc => [acc.reverse]
  | c :: cs, acc =>
    if c = '/' then acc.reverse :: splitSlashChars cs [] else splitSlashChars cs (c :: acc)

/-- Python `topic.split('/')`. -/
def splitSlash (s : String) : List String :=
  (splitSlashChars s.data []).map (fun l => ⟨l⟩)

structure EmsManager where
  objects : List (String × (EmsObject × List String))
  client : Client

/-- `MqttCommunicationManager.on_message` (lines 78-103): split the topic
on "/", require exactly two segments, decode the payload with the raw-text
fallback, and when the named object is registered, lists the attribute and
has it, set the attribute to the decoded value. -/
def EmsManager.on_message (m : EmsManager) (topic payload : String) : EmsManager :=
  match splitSlash topic with
  | [objName, attrName] =>
    let value := decodeTotal payload
    match dictGet? m.objects objName with
    | some (obj, attrs) =>
      if attrs.contains attrName then
        if (dictGet? obj.dict attrName).isSome then
          { m with objects := (dictSet m.objects objName
              ({ dict := dictSet obj.dict attrName value }, attrs)) }
        else m
      else m
    | none => m
  | _ => m

/-- Topics the manager subscribes to (`on_connect`, lines 66-74, and
`add_object`, lines 59-64, both derive them as `obj_name ++ "/" ++ attr`). -/
def emsTopics (m : EmsManager) : List String :=
  m.objects.foldr (fun p acc => p.2.2.map (fun a => p.1 ++ "/" ++ a) ++ acc) []

/-- Head of a list is not a decimal digit (delimiter condition after a
parsed number). -/
def noDigitHead : List Char → Prop
  | [] => True
  | c :: _ => isDigitChar c = false

/-! ## Association-list (Python dict) lemmas -/

theorem dictGet?_dictSet_self {α : Type} (d : List (String × α)) (k : String) (v : α) :
    dictGet? (dictSet d k v) k = some v := by
  induction d with
  | nil => simp [dictSet, dictGet?]
  | cons p rest ih =>
    by_cases h : p.1 = k
    · simp [dictSet, h, dictGet?]
    · simp [dictSet, h, dictGet?, ih]

theorem dictGet?_dictSet_ne {α : Type} (d : List (String × α)) {k k' : String} (v : α)
    (hne : k' ≠ k) : dictGet? (dictSet d k v) k' = dictGet? d k' := by
  induction d with
  | nil =>
    simp only [dictSet, dictGet?]
    rw [if_neg (fun h : k = k' => hne h.symm)]
  | cons p rest ih =>
    simp only [dictSet]
    by_cases h : p.1 = k
    · rw [if_pos h]
      simp only [dictGet?]
      rw [if_neg (fun h2 : k = k' => hne h2.symm),
        if_neg (show p.1 ≠ k' by rw [h]; exact fun h2 => hne h2.symm)]
    · rw [if_neg h]
      simp only [dictGet?]
      by_cases h2 : p.1 = k'
      · rw [if_pos h2, if_pos h2]
      · rw [if_neg h2, if_neg h2]
        exact ih

theorem dictSet_eq_of_get {α : Type} {d : List (String × α)} {k : String} {v : α}
    (h : dictGet? d k = some v) : dictSet d k v = d := by
  induction d with
  | nil => simp [dictGet?] at h
  | cons p rest ih =>
    obtain ⟨a, b⟩ := p
    simp only [dictGet?] at h
    simp only [dictSet]
    by_cases hp : a = k
    · subst hp
      rw [if_pos rfl] at h
      injection h with h
      rw [if_pos rfl, h]
    · rw [if_neg hp] at h
      rw [if_neg hp, ih h]

/-! ## Character-class lemmas -/

theorem isDigitChar_iff {c : Char} : isDigitChar c = true ↔ 48 ≤ c.toNat ∧ c.toNat ≤ 57 := by
  simp [isDigitChar]

theorem digit_ne {c : Char} (h : isDigitChar c = true) (d : Char)
    (hd : isDigitChar d = false) : c ≠ d := by
  intro heq
  subst heq
  rw [h] at hd
  exact Bool.noConfusion hd

theorem digit_not_ws {c : Char} (h : isDigitChar c = true) : isWsChar c = false := by
  obtain ⟨h1, h2⟩ := isDigitChar_iff.mp h
  simp only [isWsChar, Bool.or_eq_false_iff, decide_eq_false_iff_not]
  omega

theorem isDigitChar_digitChar (n : Nat) : isDigitChar (digitChar n) = true := by
  match n with
  | 0 | 1 | 2 | 3 | 4 | 5 | 6 | 7 | 8 => decide
  | n + 9 => exact (by decide : isDigitChar '9' = true)

theorem digitVal_digitChar {n : Nat} (h : n < 10) : digitVal (digitChar n) = n := by
  interval_cases n <;> decide

/-! ## Whitespace lemmas -/

theorem skipWs_cons_not_ws {c : Char} (h : isWsChar c = false) (cs : List Char) :
    skipWs (c :: cs) = c :: cs := by
  simp [skipWs, h]

theorem skipWs_ws_append {pre : List Char} (h : ∀ c ∈ pre, isWsChar c = true)
    (l : List Char) : skipWs (pre ++ l) = skipWs l := by
  induction pre with
  | nil => simp
  | cons c pre' ih =>
    have hc : isWsChar c = true := h c (List.mem_cons_self c pre')
    simp only [List.cons_append, skipWs, hc, if_pos]
    exact ih (fun d hd => h d (List.mem_cons_of_mem c hd))

/-! ## Decimal rendering and parsing lemmas -/

theorem natCharsAux_head {f n : Nat} (h : n < f) :
    ∃ c cs, natCharsAux f n = c :: cs ∧ isDigitChar c = true := by
  induction f generalizing n with
  | zero => omega
  | succ f ih =>
    by_cases h10 : n < 10
    · exact ⟨digitChar n, [], by simp [natCharsAux, h10], isDigitChar_digitChar n⟩
    · obtain ⟨c, cs, hcs, hc⟩ := ih (n := n / 10) (by omega)
      exact ⟨c, cs ++ [digitChar (n % 10)], by simp [natCharsAux, h10, hcs], hc⟩

theorem natChars_head (n : Nat) :
    ∃ c cs, natChars n = c :: cs ∧ isDigitChar c = true :=
  natCharsAux_head (by omega)

theorem parseDigits_natCharsAux (f : Nat) :
    ∀ n acc rest, n < f →
      parseDigits acc (natCharsAux f n ++ rest) =
        parseDigits (acc * 10 ^ (natCharsAux f n).length + n) rest := by
  induction f with
  | zero => intro n _ _ h; omega
  | succ f ih =>
    intro n acc rest h
    by_cases h10 : n < 10
    · simp only [natCharsAux, if_pos h10, List.singleton_append, parseDigits,
        isDigitChar_digitChar, if_pos, digitVal_digitChar h10, List.length_singleton,
        pow_one]
    · simp only [natCharsAux, if_neg h10, List.append_assoc, List.singleton_append]
      rw [ih (n / 10) acc (digitChar (n % 10) :: rest) (by omega)]
      simp only [parseDigits, isDigitChar_digitChar, if_pos, digitVal_digitChar
        (show n % 10 < 10 by omega), List.length_append, List.length_singleton]
      congr 1
      have hdm := Nat.div_add_mod n 10
      set K := 10 ^ (natCharsAux f (n / 10)).length with hK
      rw [pow_succ]
      ring_nf
      omega

theorem parseDigits_stop {rest : List Char} (acc : Nat) (h : noDigitHead rest) :
    parseDigits acc rest = (acc, rest) := by
  cases rest with
  | nil => rfl
  | cons c cs =>
    have h' : isDigitChar c = false := h
    simp [parseDigits, h']

theorem parseDigits_natChars (n : Nat) {rest : List Char} (h : noDigitHead rest) :
    parseDigits 0 (natChars n ++ rest) = (n, rest) := by
  rw [natChars, parseDigits_natCharsAux (n + 1) n 0 rest (by omega),
    Nat.zero_mul, Nat.zero_add, parseDigits_stop n h]

theorem parseNumber_intChars (n : Int) {rest : List Char} (h : noDigitHead rest) :
    parseNumber (intChars n ++ rest) = some (.int n, rest) := by
  rw [intChars]
  by_cases hn : n < 0
  · rw [if_pos hn]
    obtain ⟨c, cs, hcs, hc⟩ := natChars_head (-n).toNat
    simp only [List.cons_append, parseNumber, if_pos rfl, hcs, hc, if_pos]
    rw [← List.cons_append, ← hcs, parseDigits_natChars _ h]
    simp only [Option.some.injEq, Prod.mk.injEq, PyValue.int.injEq, and_true]
    have he : ((-n).toNat : Int) = -n := Int.toNat_of_nonneg (by omega)
    rw [Int.ofNat_eq_natCast, he]
    omega
  · rw [if_neg hn]
    obtain ⟨c, cs, hcs, hc⟩ := natChars_head n.toNat
    rw [hcs, List.cons_append]
    simp only [parseNumber]
    rw [if_neg (digit_ne hc '-' (by decide)), if_pos hc]
    rw [← List.cons_append, ← hcs, parseDigits_natChars _ h]
    simp only [Option.some.injEq, Prod.mk.injEq, PyValue.int.injEq, and_true]
    rw [Int.ofNat_eq_natCast, Int.toNat_of_nonneg (by omega)]

/-! ## String-literal lemmas -/

theorem escapeChar_cons (c : Char) : ∃ d ds, escapeChar c = d :: ds := by
  unfold escapeChar
  by_cases h1 : c = quoteChar
  · exact ⟨backslashChar, [quoteChar], by rw [if_pos h1]⟩
  · by_cases h2 : c = backslashChar
    · exact ⟨backslashChar, [backslashChar], by rw [if_neg h1, if_pos h2]⟩
    · exact ⟨c, [], by rw [if_neg h1, if_neg h2]⟩

theorem escString_cons (s : List Char) : ∃ d ds, escString s = d :: ds := by
  cases s with
  | nil => exact ⟨quoteChar, [], rfl⟩
  | cons c cs =>
    obtain ⟨d, ds, hd⟩ := escapeChar_cons c
    exact ⟨d, ds ++ escString cs, by simp [escString, hd]⟩

theorem parseStringBody_escString (s : List Char) (rest : List Char) :
    parseStringBody (escString s ++ rest) = some (s, rest) := by
  induction s with
  | nil =>
    cases rest with
    | nil => simp [escString, parseStringBody]
    | cons e cs => simp [escString, parseStringBody]
  | cons c cs ih =>
    by_cases h1 : c = quoteChar
    · subst h1
      have he : escString (quoteChar :: cs) ++ rest
          = backslashChar :: quoteChar :: (escString cs ++ rest) := by
        simp [escString, escapeChar]
      rw [he]
      simp only [parseStringBody]
      rw [if_neg (show ¬backslashChar = quoteChar by decide)]
      simp only [if_true, (by decide : unescape quoteChar = some quoteChar), ih]
    · by_cases h2 : c = backslashChar
      · subst h2
        have he : escString (backslashChar :: cs) ++ rest
            = backslashChar :: backslashChar :: (escString cs ++ rest) := by
          simp [escString, escapeChar, h1]
        rw [he]
        simp only [parseStringBody]
        rw [if_neg (show ¬backslashChar = quoteChar by decide)]
        simp only [if_true, (by decide : unescape backslashChar = some backslashChar), ih]
      · obtain ⟨d, ds, hd⟩ := escString_cons cs
        have he : escString (c :: cs) ++ rest = c :: d :: (ds ++ rest) := by
          simp [escString, escapeChar, h1, h2, hd]
        rw [he]
        simp only [parseStringBody]
        rw [if_neg h1, if_neg h2]
        have hrec : parseStringBody (d :: (ds ++ rest)) = some (cs, rest) := by
          rw [← List.cons_append, ← hd]
          exact ih
        rw [hrec]

/-! ## Encoder shape lemmas -/

theorem encChars_head (v : PyValue) :
    ∃ c cs, encChars v = c :: cs ∧ isWsChar c = false ∧ c ≠ ']' := by
  cases v with
  | none => exact ⟨'n', _, rfl, by decide, by decide⟩
  | bool b =>
    cases b with
    | true => exact ⟨'t', _, rfl, by decide, by decide⟩
    | false => exact ⟨'f', _, rfl, by decide, by decide⟩
  | int n =>
    simp only [encChars, intChars]
    by_cases hn : n < 0
    · exact ⟨'-', _, by rw [if_pos hn], by decide, by decide⟩
    · obtain ⟨c, cs, hcs, hc⟩ := natChars_head n.toNat
      exact ⟨c, cs, by rw [if_neg hn, hcs], digit_not_ws hc, digit_ne hc ']' (by decide)⟩
  | str s => exact ⟨quoteChar, _, rfl, by decide, by decide⟩
  | list xs =>
    cases xs with
    | nil => exact ⟨'[', _, rfl, by decide, by decide⟩
    | cons u vs => exact ⟨'[', _, rfl, by decide, by decide⟩
  | dict ms =>
    cases ms with
    | nil => exact ⟨lbraceChar, _, rfl, by decide, by decide⟩
    | cons m ms' =>
      obtain ⟨k, w⟩ := m
      exact ⟨lbraceChar, _, rfl, by decide, by decide⟩

theorem encChars_length_pos (v : PyValue) : 1 ≤ (encChars v).length := by
  obtain ⟨c, cs, hcs, -, -⟩ := encChars_head v
  simp [hcs]

theorem encTail_length_pos (vs : List PyValue) : 1 ≤ (encTail vs).length := by
  cases vs with
  | nil => simp [encTail]
  | cons u vs' => simp [encTail]

theorem encDTail_length_pos (ms : List (String × PyValue)) : 1 ≤ (encDTail ms).length := by
  cases ms with
  | nil => simp [encDTail]
  | cons m ms' =>
    obtain ⟨k, w⟩ := m
    simp [encDTail]

theorem escString_length_pos (s : List Char) : 1 ≤ (escString s).length := by
  obtain ⟨d, ds, hd⟩ := escString_cons s
  simp [hd]

/-! ## Parser completeness on encoder output -/

theorem parse_complete (fuel : Nat) :
    (∀ v pre rest, (∀ c ∈ pre, isWsChar c = true) → noDigitHead rest →
        (encChars v).length ≤ fuel →
        parseValue fuel (pre ++ (encChars v ++ rest)) = some (v, rest)) ∧
    (∀ u vs pre rest, (∀ c ∈ pre, isWsChar c = true) →
        (encChars u).length + (encTail vs).length ≤ fuel →
        parseItems fuel (pre ++ (encChars u ++ (encTail vs ++ rest))) =
          some (u :: vs, rest)) ∧
    (∀ k w ms pre rest, (∀ c ∈ pre, isWsChar c = true) →
        (escString k.data).length + (encChars w).length + (encDTail ms).length + 3 ≤ fuel →
        parseMembers fuel
            (pre ++ (quoteChar ::
              (escString k.data ++ (':' :: (' ' :: (encChars w ++ (encDTail ms ++ rest))))))) =
          some ((k, w) :: ms, rest)) := by
  induction fuel with
  | zero =>
    refine ⟨?_, ?_, ?_⟩
    · intro v pre rest _ _ hlen
      have := encChars_length_pos v
      omega
    · intro u vs pre rest _ hlen
      have := encChars_length_pos u
      have := encTail_length_pos vs
      omega
    · intro k w ms pre rest _ hlen
      omega
  | succ f ih =>
    obtain ⟨ihP, ihQ, ihR⟩ := ih
    have hws1 : ∀ c ∈ ([' '] : List Char), isWsChar c = true := by
      intro c hc
      simp only [List.mem_singleton] at hc
      subst hc
      decide
    have hws0 : ∀ c ∈ ([] : List Char), isWsChar c = true := by
      intro c hc
      simp at hc
    refine ⟨?_, ?_, ?_⟩
    · -- parseValue completeness
      intro v pre rest hpre hrest hlen
      cases v with
      | none =>
        simp only [encChars, List.cons_append]
        simp only [parseValue]
        rw [skipWs_ws_append hpre, skipWs_cons_not_ws (by decide)]
        simp [expectLit]
      | bool b =>
        cases b with
        | true =>
          simp only [encChars, List.cons_append]
          simp only [parseValue]
          rw [skipWs_ws_append hpre, skipWs_cons_not_ws (by decide)]
          simp [expectLit]
        | false =>
          simp only [encChars, List.cons_append]
          simp only [parseValue]
          rw [skipWs_ws_append hpre, skipWs_cons_not_ws (by decide)]
          simp [expectLit]
      | int n =>
        by_cases hn : n < 0
        · have hi : encChars (PyValue.int n) = '-' :: natChars (-n).toNat := by
            simp [encChars, intChars, hn]
          rw [hi]
          simp only [List.cons_append]
          simp only [parseValue]
          rw [skipWs_ws_append hpre, skipWs_cons_not_ws (by decide)]
          have hnum : parseNumber ('-' :: (natChars (-n).toNat ++ rest)) =
              some (.int n, rest) := by
            rw [← List.cons_append]
            rw [show '-' :: natChars (-n).toNat = intChars n by simp [intChars, hn]]
            exact parseNumber_intChars n hrest
          simp [hnum, (show ('-' : Char) ≠ quoteChar by decide),
            (show ('-' : Char) ≠ lbraceChar by decide)]
        · obtain ⟨c, cs, hcs, hc⟩ := natChars_head n.toNat
          have hi : encChars (PyValue.int n) = c :: cs := by
            simp [encChars, intChars, hn, hcs]
          rw [hi]
          simp only [List.cons_append]
          simp only [parseValue]
          rw [skipWs_ws_append hpre, skipWs_cons_not_ws (digit_not_ws hc)]
          have hnum : parseNumber (c :: (cs ++ rest)) = some (.int n, rest) := by
            rw [← List.cons_append, ← hcs]
            rw [show natChars n.toNat = intChars n by simp [intChars, hn]]
            exact parseNumber_intChars n hrest
          simp [digit_ne hc 'n' (by decide), digit_ne hc 't' (by decide),
            digit_ne hc 'f' (by decide), digit_ne hc quoteChar (by decide),
            digit_ne hc '[' (by decide), digit_ne hc lbraceChar (by decide),
            hc, hnum]
      | str s =>
        simp only [encChars, List.cons_append]
        simp only [parseValue]
        rw [skipWs_ws_append hpre, skipWs_cons_not_ws (by decide)]
        simp [parseStringBody_escString, (show quoteChar ≠ 'n' by decide),
          (show quoteChar ≠ 't' by decide), (show quoteChar ≠ 'f' by decide)]
      | list xs =>
        cases xs with
        | nil =>
          simp only [encChars, List.cons_append]
          simp only [parseValue]
          rw [skipWs_ws_append hpre, skipWs_cons_not_ws (by decide)]
          simp [@skipWs_cons_not_ws ']' (by decide),
            (show ('[' : Char) ≠ quoteChar by decide)]
        | cons u vs =>
          obtain ⟨c, cs, hcs, hws, hbr⟩ := encChars_head u
          have hQ := ihQ u vs [] rest hws0 (by
            simp only [encChars, List.length_cons, List.length_append] at hlen
            omega)
          simp only [List.nil_append] at hQ
          simp only [encChars, List.cons_append, List.append_assoc]
          simp only [parseValue]
          rw [skipWs_ws_append hpre, skipWs_cons_not_ws (by decide)]
          rw [hcs] at hQ ⊢
          simp only [List.cons_append] at hQ ⊢
          simp [@skipWs_cons_not_ws c (by rw [hws]) , hbr, hQ,
            (show ('[' : Char) ≠ quoteChar by decide)]
      | dict ms =>
        cases ms with
        | nil =>
          simp only [encChars, List.cons_append]
          simp only [parseValue]
          rw [skipWs_ws_append hpre]
          rw [skipWs_cons_not_ws (by decide : isWsChar lbraceChar = false)]
          simp [@skipWs_cons_not_ws rbraceChar (by decide),
            (show lbraceChar ≠ 'n' by decide), (show lbraceChar ≠ 't' by decide),
            (show lbraceChar ≠ 'f' by decide), (show lbraceChar ≠ quoteChar by decide),
            (show lbraceChar ≠ '[' by decide)]
        | cons m ms' =>
          obtain ⟨k, w⟩ := m
          have hR := ihR k w ms' [] rest hws0 (by
            simp only [encChars, List.length_cons, List.length_append] at hlen
            omega)
          simp only [List.nil_append] at hR
          simp only [encChars, List.cons_append, List.append_assoc]
          simp only [parseValue]
          rw [skipWs_ws_append hpre]
          rw [skipWs_cons_not_ws (by decide : isWsChar lbraceChar = false)]
          simp [@skipWs_cons_not_ws quoteChar (by decide), hR,
            (show lbraceChar ≠ 'n' by decide), (show lbraceChar ≠ 't' by decide),
            (show lbraceChar ≠ 'f' by decide), (show lbraceChar ≠ quoteChar by decide),
            (show lbraceChar ≠ '[' by decide),
            (show quoteChar ≠ rbraceChar by decide)]
    · -- parseItems completeness
      intro u vs pre rest hpre hlen
      have hnd : noDigitHead (encTail vs ++ rest) := by
        cases vs with
        | nil => exact (show isDigitChar ']' = false by decide)
        | cons w vs' => exact (show isDigitChar ',' = false by decide)
      have hl1 : (encChars u).length ≤ f := by
        have := encTail_length_pos vs
        omega
      have hP := ihP u pre (encTail vs ++ rest) hpre hnd hl1
      simp only [parseItems]
      rw [hP]
      cases vs with
      | nil =>
        simp only [encTail, List.cons_append, List.nil_append]
        simp [@skipWs_cons_not_ws ']' (by decide)]
      | cons w vs' =>
        have hQ := ihQ w vs' [' '] rest hws1 (by
          simp only [encTail, List.length_cons, List.length_append] at hlen
          have := encChars_length_pos u
          omega)
        simp only [List.cons_append, List.nil_append] at hQ
        simp only [encTail, List.cons_append, List.append_assoc]
        simp [@skipWs_cons_not_ws ',' (by decide), hQ]
    · -- parseMembers completeness
      intro k w ms pre rest hpre hlen
      have hnd : noDigitHead (encDTail ms ++ rest) := by
        cases ms with
        | nil => exact (show isDigitChar rbraceChar = false by decide)
        | cons m ms2 =>
          obtain ⟨k2, w2⟩ := m
          exact (show isDigitChar ',' = false by decide)
      have hl1 : (encChars w).length ≤ f := by
        have := escString_length_pos k.data
        omega
      have hP := ihP w [' '] (encDTail ms ++ rest) hws1 hnd hl1
      simp only [List.cons_append, List.nil_append] at hP
      simp only [parseMembers]
      rw [skipWs_ws_append hpre, skipWs_cons_not_ws (by decide)]
      have hsb := parseStringBody_escString k.data
        (':' :: (' ' :: (encChars w ++ (encDTail ms ++ rest))))
      cases ms with
      | nil =>
        simp only [encDTail, List.singleton_append, List.cons_append,
          List.nil_append, List.append_assoc] at hP hsb
        simp [encDTail, hsb, hP, @skipWs_cons_not_ws ':' (by decide),
          @skipWs_cons_not_ws rbraceChar (by decide),
          (show rbraceChar ≠ ',' by decide)]
      | cons m ms2 =>
        obtain ⟨k2, w2⟩ := m
        have hR2 := ihR k2 w2 ms2 [' '] rest hws1 (by
          simp only [encDTail, List.length_cons, List.length_append] at hlen
          omega)
        simp only [List.cons_append, List.nil_append] at hR2
        simp only [encDTail, List.singleton_append, List.cons_append,
          List.nil_append, List.append_assoc] at hP hsb
        simp [encDTail, hsb, hP, hR2, @skipWs_cons_not_ws ':' (by decide),
          @skipWs_cons_not_ws ',' (by decide), List.append_assoc]

/-- Round trip of the codec: parsing the serialization of any value yields
that value back. -/
theorem decode_encode (v : PyValue) : decode (encode v) = some v := by
  have hP := (parse_complete ((encChars v).length + 1)).1 v [] []
    (by intro c hc; simp at hc) trivial (by omega)
  simp only [List.nil_append, List.append_nil] at hP
  unfold decode
  rw [show (encode v).data = encChars v from rfl, hP]
  simp [skipWs]

theorem foldl_subscribe_trace (cfg : List (String × String)) (c : Client) :
    (cfg.foldl (fun c p => c.subscribe p.2) c).trace =
      c.trace ++ cfg.map (fun p => BusAction.subscribe p.2) := by
  induction cfg generalizing c with
  | nil => simp
  | cons p rest ih =>
    rw [List.foldl_cons, ih]
    simp [Client.subscribe, List.append_assoc]

/-! ## Claim theorems -/

/-- C1: the claim says an entity read always returns the value currently in
the StateStore (`handler.data`), and in particular sees inbound updates.
The code violates this, contradicting its own comment "Always fetch from
handler.data": default seeding (and every `__setattr__`) stores the value
in the instance `__dict__`, and Python only invokes `__getattr__` when the
name is absent from `__dict__`; so after an inbound message stores `5`,
the read still returns the stale local `0`. -/
theorem C1_entity_read_stale :
    (MQTTEngineEntity.create (mkMQTTHandler []) [("a", "t/a")] [("a", PyValue.int 0)]).1.getattr
        ((MQTTEngineEntity.create (mkMQTTHandler []) [("a", "t/a")]
          [("a", PyValue.int 0)]).2.on_message "t/a" "5" 1) "a" = some (PyValue.int 0) ∧
    dictGet? ((MQTTEngineEntity.create (mkMQTTHandler []) [("a", "t/a")]
        [("a", PyValue.int 0)]).2.on_message "t/a" "5" 1).data "a" = some (PyValue.int 5) :=
  ⟨rfl, rfl⟩

/-- C2: after an entity-level write of `v` to a declared attribute, the
StateStore holds `v` for it and exactly one immediate publish of
`encode v` on the attribute's topic has been issued. -/
theorem C2_entity_write_store_and_publish (e : MQTTEngineEntity) (h : MQTTHandler)
    (name : String) (v : PyValue) (topic : String)
    (hdecl : (dictGet? e.config name).isSome = true)
    (htopic : dictGet? h.config name = some topic) :
    dictGet? (e.setattr h name v).2.data name = some v ∧
    (e.setattr h name v).2.client.trace =
      h.client.trace ++ [BusAction.publish topic (encode v) h.client.connected] := by
  simp only [MQTTEngineEntity.setattr, hdecl, if_true, htopic]
  exact ⟨dictGet?_dictSet_self _ _ _, by simp [Client.publish]⟩

/-- Witness for C2 at a concrete entity, attribute and value. -/
theorem C2_entity_write_store_and_publish_witness :
    dictGet? ((MQTTEngineEntity.create (mkMQTTHandler []) [("a", "t")] []).1.setattr
        (MQTTEngineEntity.create (mkMQTTHandler []) [("a", "t")] []).2 "a"
        (PyValue.int 3)).2.data "a" = some (PyValue.int 3) ∧
    ((MQTTEngineEntity.create (mkMQTTHandler []) [("a", "t")] []).1.setattr
        (MQTTEngineEntity.create (mkMQTTHandler []) [("a", "t")] []).2 "a"
        (PyValue.int 3)).2.client.trace =
      (MQTTEngineEntity.create (mkMQTTHandler []) [("a", "t")] []).2.client.trace ++
        [BusAction.publish "t" (encode (PyValue.int 3))
          (MQTTEngineEntity.create (mkMQTTHandler []) [("a", "t")] []).2.client.connected] :=
  C2_entity_write_store_and_publish _ _ "a" (PyValue.int 3) "t" rfl rfl

/-- C3: `decode (encode v) = v` for every structured value, and decode is
total with the raw-text fallback on parse failure. -/
theorem C3_codec_roundtrip_and_total :
    (∀ v : PyValue, decodeTotal (encode v) = v) ∧
    (∀ s : String, decode s = none → decodeTotal s = PyValue.str s) := by
  constructor
  · intro v
    unfold decodeTotal
    rw [decode_encode]
  · intro s h
    unfold decodeTotal
    rw [h]

/-- Witness for C3: a structured value round-trips; a plain non-JSON
string decodes back to itself. -/
theorem C3_codec_roundtrip_and_total_witness :
    decodeTotal (encode (PyValue.int 5)) = PyValue.int 5 ∧
    decodeTotal "hello" = PyValue.str "hello" :=
  ⟨C3_codec_roundtrip_and_total.1 (PyValue.int 5),
   C3_codec_roundtrip_and_total.2 "hello" rfl⟩

/-- C4 counterexample: register an entity with default `0` before the
handler is connected.  The resulting client trace shows the single publish
of the default was handed to the client while disconnected
(`connectedAtCall = false`), and the connect callback afterwards issues
only a re-subscription, never a publish — nothing is queued or deferred
until connect. -/
theorem C4_default_not_deferred_counterexample :
    (MQTTEngineEntity.create (mkMQTTHandler []) [("a", "t")]
        [("a", PyValue.int 0)]).2.on_connect.client.trace =
      [BusAction.subscribe "t", BusAction.publish "t" "0" false,
        BusAction.subscribe "t"] := rfl

/-- C4 (amended): a default is written to the StateStore and published
exactly once, immediately at registration time, regardless of the
connection state (the publish records the connection flag at call time);
and `on_connect` only issues subscriptions, never publishes, so a
pre-connect default publication is not replayed on connect. -/
theorem C4_default_publish_immediate :
    (∀ (h : MQTTHandler) (a t : String) (v : PyValue),
      (MQTTEngineEntity.create h [(a, t)] [(a, v)]).2.client.trace =
        h.client.trace ++ [BusAction.subscribe t,
          BusAction.publish t (encode v) h.client.connected] ∧
      dictGet? (MQTTEngineEntity.create h [(a, t)] [(a, v)]).2.data a = some v) ∧
    (∀ h : MQTTHandler, h.on_connect.client.trace =
      h.client.trace ++ h.config.map (fun p => BusAction.subscribe p.2)) := by
  constructor
  · intro h a t v
    constructor
    · simp [MQTTEngineEntity.create, MQTTHandler.add_config, initDefaults, dictGet?,
        Client.subscribe, Client.publish]
    · simp [MQTTEngineEntity.create, MQTTHandler.add_config, initDefaults, dictGet?,
        dictGet?_dictSet_self, Client.subscribe, Client.publish]
  · intro h
    simp [MQTTHandler.on_connect, foldl_subscribe_trace]

/-- C5 counterexample: two `add_config` registrations binding different
attributes to the same topic are accepted; the resulting reachable state
has topic `"t"` bound to both `"a"` and `"b"`, so the binding is not
one-to-one and `register` does not preserve injectivity. -/
theorem C5_shared_topic_counterexample :
    dictGet? (((mkMQTTHandler []).add_config [("a", "t")]).add_config
        [("b", "t")]).config "a" = some "t" ∧
    dictGet? (((mkMQTTHandler []).add_config [("a", "t")]).add_config
        [("b", "t")]).config "b" = some "t" ∧
    "a" ≠ "b" :=
  ⟨rfl, rfl, by decide⟩

/-- C5 (amended): after any sequence of `add_config` registrations, every
attribute known to the StateStore still has a (single) topic binding —
`add_config` preserves that the data keys are a subset of the config keys —
but nothing prevents two attributes from sharing one topic. -/
theorem C5_every_stored_attribute_has_topic (h : MQTTHandler)
    (cfg : List (String × String)) (a : String)
    (hI : ∀ b, (dictGet? h.data b).isSome = true → (dictGet? h.config b).isSome = true)
    (ha : (dictGet? (h.add_config cfg).data a).isSome = true) :
    (dictGet? (h.add_config cfg).config a).isSome = true := by
  induction cfg generalizing h with
  | nil => exact hI a ha
  | cons p rest ih =>
    obtain ⟨attr, topic⟩ := p
    simp only [MQTTHandler.add_config] at ha ⊢
    refine ih _ ?_ ha
    intro b hb
    by_cases hba : b = attr
    · subst hba
      rw [dictGet?_dictSet_self]
      rfl
    · rw [dictGet?_dictSet_ne _ _ hba] at hb
      rw [dictGet?_dictSet_ne _ _ hba]
      exact hI b hb

/-- Witness for C5 at a concrete handler and registration. -/
theorem C5_every_stored_attribute_has_topic_witness :
    (dictGet? ((mkMQTTHandler []).add_config [("a", "t")]).config "a").isSome = true :=
  C5_every_stored_attribute_has_topic (mkMQTTHandler []) [("a", "t")] "a"
    (fun b hb => by simp [mkMQTTHandler, dictGet?] at hb) rfl

/-- C6 counterexample: after an inbound message stores `5` (at time 7) for
attribute `"a"`, re-registering the identical `("a", "t")` pair resets the
stored value and last-update time back to `None` — identical
re-registration is not idempotent on the StateStore. -/
theorem C6_reregistration_resets_counterexample :
    dictGet? ((((mkMQTTHandler []).add_config [("a", "t")]).on_message "t" "5" 7).add_config
        [("a", "t")]).data "a" = some PyValue.none ∧
    dictGet? (((mkMQTTHandler []).add_config [("a", "t")]).on_message "t" "5" 7).data "a" =
      some (PyValue.int 5) ∧
    dictGet? ((((mkMQTTHandler []).add_config [("a", "t")]).on_message "t" "5" 7).add_config
        [("a", "t")]).last_update_time "a" = some none ∧
    dictGet? (((mkMQTTHandler []).add_config [("a", "t")]).on_message "t" "5"
        7).last_update_time "a" = some (some 7) :=
  ⟨rfl, rfl, rfl, rfl⟩

/-- C6 (amended): re-registering the identical `(attribute, topic)` pair
leaves the topic registry unchanged, but resets the attribute's stored
value and last-update timestamp to the absent (`None`) state; entries are
never destroyed — every stored key is still present afterwards. -/
theorem C6_reregistration_resets (h : MQTTHandler) (a t b : String)
    (hreg : dictGet? h.config a = some t) :
    (h.add_config [(a, t)]).config = h.config ∧
    dictGet? (h.add_config [(a, t)]).data a = some PyValue.none ∧
    dictGet? (h.add_config [(a, t)]).last_update_time a = some none ∧
    ((dictGet? h.data b).isSome = true →
      (dictGet? (h.add_config [(a, t)]).data b).isSome = true) := by
  simp only [MQTTHandler.add_config]
  refine ⟨dictSet_eq_of_get hreg, dictGet?_dictSet_self _ _ _,
    dictGet?_dictSet_self _ _ _, ?_⟩
  intro hb
  by_cases hba : b = a
  · subst hba
    rw [dictGet?_dictSet_self]
    rfl
  · rw [dictGet?_dictSet_ne _ _ hba]
    exact hb

/-- Witness for C6 at a concrete re-registration. -/
theorem C6_reregistration_resets_witness :
    (((mkMQTTHandler []).add_config [("a", "t")]).add_config [("a", "t")]).config =
      ((mkMQTTHandler []).add_config [("a", "t")]).config ∧
    dictGet? (((mkMQTTHandler []).add_config [("a", "t")]).add_config
        [("a", "t")]).data "a" = some PyValue.none ∧
    dictGet? (((mkMQTTHandler []).add_config [("a", "t")]).add_config
        [("a", "t")]).last_update_time "a" = some none ∧
    ((dictGet? ((mkMQTTHandler []).add_config [("a", "t")]).data "a").isSome = true →
      (dictGet? (((mkMQTTHandler []).add_config [("a", "t")]).add_config
        [("a", "t")]).data "a").isSome = true) :=
  C6_reregistration_resets ((mkMQTTHandler []).add_config [("a", "t")]) "a" "t" "a" rfl

/-- C7 counterexample: writing name `"b"`, outside the entity's declared
set `{"a"}`, raises no error: the handler (StateStore and bus trace) is
left untouched and the value is silently stored as a local instance
attribute. -/
theorem C7_undeclared_write_silent_counterexample :
    ((MQTTEngineEntity.create (mkMQTTHandler []) [("a", "t")] []).1.setattr
        (MQTTEngineEntity.create (mkMQTTHandler []) [("a", "t")] []).2 "b"
        (PyValue.int 7)).2 =
      (MQTTEngineEntity.create (mkMQTTHandler []) [("a", "t")] []).2 ∧
    dictGet? ((MQTTEngineEntity.create (mkMQTTHandler []) [("a", "t")] []).1.setattr
        (MQTTEngineEntity.create (mkMQTTHandler []) [("a", "t")] []).2 "b"
        (PyValue.int 7)).1.dict "b" = some (PyValue.int 7) :=
  ⟨rfl, rfl⟩

/-- C7 (amended): a write to a name outside the entity's declared set is
silently accepted: no error is reported, the StateStore and the bus are
untouched, and the value lands only in the entity instance's own
`__dict__`. -/
theorem C7_undeclared_write_local_only (e : MQTTEngineEntity) (h : MQTTHandler)
    (name : String) (v : PyValue)
    (hout : (dictGet? e.config name).isSome = false) :
    (e.setattr h name v).2 = h ∧
    (e.setattr h name v).1.dict = dictSet e.dict name v ∧
    (e.setattr h name v).1.config = e.config := by
  simp [MQTTEngineEntity.setattr, hout]

/-- Witness for C7 at a concrete undeclared name. -/
theorem C7_undeclared_write_local_only_witness :
    ((MQTTEngineEntity.create (mkMQTTHandler []) [("a", "t")] []).1.setattr
        (MQTTEngineEntity.create (mkMQTTHandler []) [("a", "t")] []).2 "b"
        (PyValue.int 7)).2 =
      (MQTTEngineEntity.create (mkMQTTHandler []) [("a", "t")] []).2 ∧
    ((MQTTEngineEntity.create (mkMQTTHandler []) [("a", "t")] []).1.setattr
        (MQTTEngineEntity.create (mkMQTTHandler []) [("a", "t")] []).2 "b"
        (PyValue.int 7)).1.dict =
      dictSet (MQTTEngineEntity.create (mkMQTTHandler []) [("a", "t")] []).1.dict "b"
        (PyValue.int 7) ∧
    ((MQTTEngineEntity.create (mkMQTTHandler []) [("a", "t")] []).1.setattr
        (MQTTEngineEntity.create (mkMQTTHandler []) [("a", "t")] []).2 "b"
        (PyValue.int 7)).1.config =
      (MQTTEngineEntity.create (mkMQTTHandler []) [("a", "t")] []).1.config :=
  C7_undeclared_write_local_only _ _ "b" (PyValue.int 7) rfl

/-- C8 counterexample: calling `start` twice on a fresh handler succeeds
silently and re-runs the connection and loop startup — the bus trace shows
`connect`/`loop_start` issued twice, with no error of any kind. -/
theorem C8_double_start_counterexample :
    (mkMQTTHandler []).start.start.client.trace =
      [BusAction.connect, BusAction.loopStart, BusAction.connect,
        BusAction.loopStart] := rfl

/-- C8 (amended): `start` has no already-started guard: each call (first or
second) unconditionally issues `connect` followed by `loop_start`; a second
call is silently tolerated and repeats the startup instead of being
reported as an error. -/
theorem C8_start_has_no_guard (h : MQTTHandler) :
    h.start.client.trace =
      h.client.trace ++ [BusAction.connect, BusAction.loopStart] ∧
    h.start.start.client.trace =
      h.client.trace ++ [BusAction.connect, BusAction.loopStart,
        BusAction.connect, BusAction.loopStart] := by
  constructor
  · simp [MQTTHandler.start, MQTTHandler.connect]
  · simp [MQTTHandler.start, MQTTHandler.connect]

/-- C9 counterexample: register an object named `"x/y"` with attribute
`"z"`; the manager's derived subscription topic is exactly `"x/y/z"`, yet
an inbound message on that very topic is ignored, because the inbound
dispatch splits the topic on `'/'` and requires exactly two segments — the
core is not treating the topic as an opaque equality key. -/
theorem C9_slash_convention_counterexample :
    EmsManager.on_message
        { objects := [("x/y", ({ dict := [("z", PyValue.int 0)] }, ["z"]))],
          client := { connected := false, trace := [] } } "x/y/z" "1" =
      { objects := [("x/y", ({ dict := [("z", PyValue.int 0)] }, ["z"]))],
        client := { connected := false, trace := [] } } ∧
    emsTopics
        { objects := [("x/y", ({ dict := [("z", PyValue.int 0)] }, ["z"]))],
          client := { connected := false, trace := [] } } = ["x/y/z"] :=
  ⟨rfl, rfl⟩

/-- C9 (amended): the ppc handlers do treat topics as opaque keys — their
inbound dispatch is a pure equality lookup, and a message whose topic
equals no registered binding leaves the handler unchanged — but
`MqttCommunicationManager.on_message` depends on the slash convention: any
message whose topic does not split into exactly two segments is dropped,
whatever the registered bindings are. -/
theorem C9_topic_dispatch (h : MQTTHandler) (topic raw : String) (now : Nat)
    (m : EmsManager) (topic2 payload : String)
    (hnone : ∀ p ∈ h.config, p.2 ≠ topic)
    (hsplit : (splitSlash topic2).length ≠ 2) :
    h.on_message topic raw now = h ∧ m.on_message topic2 payload = m := by
  constructor
  · unfold MQTTHandler.on_message
    have hfind : h.config.find? (fun p => p.2 == topic) = none := by
      rw [List.find?_eq_none]
      intro p hp
      simp [hnone p hp]
    rw [hfind]
  · cases hsp : splitSlash topic2 with
    | nil => simp [EmsManager.on_message, hsp]
    | cons x xs =>
      cases xs with
      | nil => simp [EmsManager.on_message, hsp]
      | cons y ys =>
        cases ys with
        | nil => exact absurd (show (splitSlash topic2).length = 2 by rw [hsp]; rfl) hsplit
        | cons z zs => simp [EmsManager.on_message, hsp]

/-- Witness for C9: an unbound topic is discarded by the ppc handler, and
the three-segment topic is discarded by the manager. -/
theorem C9_topic_dispatch_witness :
    (mkMQTTHandler []).on_message "u" "r" 0 = mkMQTTHandler [] ∧
    EmsManager.on_message
        { objects := [("x/y", ({ dict := [("z", PyValue.int 0)] }, ["z"]))],
          client := { connected := false, trace := [] } } "x/y/z" "1" =
      { objects := [("x/y", ({ dict := [("z", PyValue.int 0)] }, ["z"]))],
        client := { connected := false, trace := [] } } :=
  C9_topic_dispatch (mkMQTTHandler []) "u" "r" 0 _ "x/y/z" "1"
    (by intro p hp; simp [mkMQTTHandler] at hp) (by decide)

/-- C10: when an inbound message's topic is bound (possibly by several
attributes), only the first matching attribute in registration order is
updated — its value becomes the decoded payload and its timestamp the
current time — and every other attribute's value and timestamp are left
unchanged. -/
theorem C10_first_match_wins (h : MQTTHandler) (topic raw : String) (now : Nat)
    (a t b : String)
    (hfind : h.config.find? (fun p => p.2 == topic) = some (a, t))
    (hb : b ≠ a) :
    dictGet? (h.on_message topic raw now).data a = some (decodeTotal raw) ∧
    dictGet? (h.on_message topic raw now).last_update_time a = some (some now) ∧
    dictGet? (h.on_message topic raw now).data b = dictGet? h.data b ∧
    dictGet? (h.on_message topic raw now).last_update_time b =
      dictGet? h.last_update_time b := by
  unfold MQTTHandler.on_message
  rw [hfind]
  exact ⟨dictGet?_dictSet_self _ _ _, dictGet?_dictSet_self _ _ _,
    dictGet?_dictSet_ne _ _ hb, dictGet?_dictSet_ne _ _ hb⟩

/-- Witness for C10: attributes `"a"` and `"b"` both bound to topic `"t"`;
an inbound message on `"t"` updates `"a"` (registered first) and leaves
`"b"` untouched. -/
theorem C10_first_match_wins_witness :
    dictGet? (((mkMQTTHandler []).add_config [("a", "t"), ("b", "t")]).on_message
        "t" "9" 3).data "a" = some (decodeTotal "9") ∧
    dictGet? (((mkMQTTHandler []).add_config [("a", "t"), ("b", "t")]).on_message
        "t" "9" 3).last_update_time "a" = some (some 3) ∧
    dictGet? (((mkMQTTHandler []).add_config [("a", "t"), ("b", "t")]).on_message
        "t" "9" 3).data "b" =
      dictGet? ((mkMQTTHandler []).add_config [("a", "t"), ("b", "t")]).data "b" ∧
    dictGet? (((mkMQTTHandler []).add_config [("a", "t"), ("b", "t")]).on_message
        "t" "9" 3).last_update_time "b" =
      dictGet? ((mkMQTTHandler []).add_config
        [("a", "t"), ("b", "t")]).last_update_time "b" :=
  C10_first_match_wins ((mkMQTTHandler []).add_config [("a", "t"), ("b", "t")])
    "t" "9" 3 "a" "t" "b" rfl (by decide)
